import Mathlib

/-!
# Verification of the EnergyGrid Data Aggregator client

A shallow embedding of `client/client.js` (the EnergyGrid data-aggregator
client) together with proofs of the design-level properties stated for it.

The embedding covers:
* `generateSignature` (client.js, lines 20-23), including a full model of the
  MD5 digest from node's `crypto` module (RFC 1321) and UTF-8 encoding, since
  `crypto.createHash('md5').update(data).digest('hex')` hashes the UTF-8
  bytes of `data` and renders the 16-byte digest as lowercase hex;
* `createBatches` (lines 39-45), as a fuel-indexed loop `createBatchesAux`
  mirroring the `for (let i = 0; i < array.length; i += batchSize)` loop —
  the fuel bounds the number of loop iterations, so "no fuel suffices"
  captures the loop never terminating;
* `makeRequest` (lines 50-81), with the network modelled as an oracle
  giving each attempt's outcome and `Date.now()` modelled as a clock
  indexed by the attempt number;
* `RateLimitedQueue.execute` (lines 100-111), with explicit integer
  timestamps: the call arrives at `now`, `sleep(waitTime)` sleeps exactly
  `waitTime`, and a nonnegative `drift` accounts for time passing between
  the end of the sleep and the second `Date.now()` read;
* the batch loop of `fetchAllDeviceData` (lines 139-155), both as an
  untimed success/failure tally (`processBatches`) and as a timed model
  (`runBatchIssuances`) that records the start time of every network
  attempt, including retries.
-/

/-! ## MD5 (model of node `crypto` md5, RFC 1321) -/

/-- The 64 round constants `K[i] = floor(2^32 * abs(sin(i+1)))` of MD5. -/
def md5K : List Nat :=
  [0xd76aa478, 0xe8c7b756, 0x242070db, 0xc1bdceee,
   0xf57c0faf, 0x4787c62a, 0xa8304613, 0xfd469501,
   0x698098d8, 0x8b44f7af, 0xffff5bb1, 0x895cd7be,
   0x6b901122, 0xfd987193, 0xa679438e, 0x49b40821,
   0xf61e2562, 0xc040b340, 0x265e5a51, 0xe9b6c7aa,
   0xd62f105d, 0x02441453, 0xd8a1e681, 0xe7d3fbc8,
   0x21e1cde6, 0xc33707d6, 0xf4d50d87, 0x455a14ed,
   0xa9e3e905, 0xfcefa3f8, 0x676f02d9, 0x8d2a4c8a,
   0xfffa3942, 0x8771f681, 0x6d9d6122, 0xfde5380c,
   0xa4beea44, 0x4bdecfa9, 0xf6bb4b60, 0xbebfbc70,
   0x289b7ec6, 0xeaa127fa, 0xd4ef3085, 0x04881d05,
   0xd9d4d039, 0xe6db99e5, 0x1fa27cf8, 0xc4ac5665,
   0xf4292244, 0x432aff97, 0xab9423a7, 0xfc93a039,
   0x655b59c3, 0x8f0ccc92, 0xffeff47d, 0x85845dd1,
   0x6fa87e4f, 0xfe2ce6e0, 0xa3014314, 0x4e0811a1,
   0xf7537e82, 0xbd3af235, 0x2ad7d2bb, 0xeb86d391]

/-- The 64 per-round left-rotation amounts of MD5. -/
def md5S : List Nat :=
  [7, 12, 17, 22, 7, 12, 17, 22, 7, 12, 17, 22, 7, 12, 17, 22,
   5, 9, 14, 20, 5, 9, 14, 20, 5, 9, 14, 20, 5, 9, 14, 20,
   4, 11, 16, 23, 4, 11, 16, 23, 4, 11, 16, 23, 4, 11, 16, 23,
   6, 10, 15, 21, 6, 10, 15, 21, 6, 10, 15, 21, 6, 10, 15, 21]

/-- 32-bit complement: on inputs below `2^32` this is bitwise NOT. -/
def not32 (a : Nat) : Nat := a ^^^ 0xffffffff

/-- 32-bit left rotation by `s` positions (for `s ≤ 32`). -/
def rotl32 (x s : Nat) : Nat :=
  (((x % 4294967296) <<< s) % 4294967296) ||| ((x % 4294967296) >>> (32 - s))

/-- The MD5 round function `F`/`G`/`H`/`I`, selected by the round index. -/
def md5f (i b c d : Nat) : Nat :=
  if i < 16 then (b &&& c) ||| (not32 b &&& d)
  else if i < 32 then (d &&& b) ||| (not32 d &&& c)
  else if i < 48 then b ^^^ c ^^^ d
  else c ^^^ (b ||| not32 d)

/-- The message-word index accessed in round `i` of MD5. -/
def md5g (i : Nat) : Nat :=
  if i < 16 then i
  else if i < 32 then (5 * i + 1) % 16
  else if i < 48 then (3 * i + 5) % 16
  else (7 * i) % 16

/-- One MD5 round on the state `(a, b, c, d)` over message block `M`. -/
def md5Round (M : List Nat) (st : Nat × Nat × Nat × Nat) (i : Nat) :
    Nat × Nat × Nat × Nat :=
  let (a, b, c, d) := st
  let f := (md5f i b c d + a + md5K.getD i 0 + M.getD (md5g i) 0) % 4294967296
  (d, (b + rotl32 f (md5S.getD i 0)) % 4294967296, b, c)

/-- Process one 16-word block: 64 rounds, then add into the running state. -/
def md5ProcessBlock (st : Nat × Nat × Nat × Nat) (M : List Nat) :
    Nat × Nat × Nat × Nat :=
  let (a, b, c, d) := (List.range 64).foldl (md5Round M) st
  ((st.1 + a) % 4294967296, (st.2.1 + b) % 4294967296,
   (st.2.2.1 + c) % 4294967296, (st.2.2.2 + d) % 4294967296)

/-- Group bytes into little-endian 32-bit words (input length a multiple of 4). -/
def bytesToWords : List Nat → List Nat
  | b0 :: b1 :: b2 :: b3 :: rest =>
      (b0 + 256 * b1 + 65536 * b2 + 16777216 * b3) :: bytesToWords rest
  | _ => []

/-- Group words into 16-word blocks (input length a multiple of 16). -/
def words16 : List Nat → List (List Nat)
  | w0 :: w1 :: w2 :: w3 :: w4 :: w5 :: w6 :: w7 ::
    w8 :: w9 :: w10 :: w11 :: w12 :: w13 :: w14 :: w15 :: rest =>
      [w0, w1, w2, w3, w4, w5, w6, w7, w8, w9, w10, w11, w12, w13, w14, w15]
        :: words16 rest
  | _ => []

/-- MD5 padding: append `0x80`, zero bytes up to 56 mod 64, then the bit
length as 8 little-endian bytes. -/
def padBytes (msg : List Nat) : List Nat :=
  let len := msg.length
  msg ++ [128] ++ List.replicate ((119 - len % 64) % 64) 0
      ++ ((List.range 8).map (fun i => ((8 * len) >>> (8 * i)) % 256))

/-- Serialize a 32-bit word as 4 little-endian bytes. -/
def wordLE (w : Nat) : List Nat :=
  [w % 256, (w >>> 8) % 256, (w >>> 16) % 256, (w >>> 24) % 256]

/-- The 16-byte MD5 digest of a byte string. -/
def md5Bytes (msg : List Nat) : List Nat :=
  let blocks := words16 (bytesToWords (padBytes msg))
  let st := blocks.foldl md5ProcessBlock
      (0x67452301, 0xefcdab89, 0x98badcfe, 0x10325476)
  wordLE st.1 ++ wordLE st.2.1 ++ wordLE st.2.2.1 ++ wordLE st.2.2.2

/-- Lowercase hexadecimal digit for a nibble. -/
def hexDigitChar (n : Nat) : Char :=
  if n < 10 then Char.ofNat (48 + n) else Char.ofNat (87 + n)

/-- Render one byte as two lowercase hex characters. -/
def byteToHex (b : Nat) : List Char :=
  [hexDigitChar (b / 16 % 16), hexDigitChar (b % 16)]

/-- `digest('hex')`: the MD5 digest of a byte string as a lowercase hex
string. -/
def md5Hex (msg : List Nat) : String :=
  String.mk ((md5Bytes msg).flatMap byteToHex)

/-- UTF-8 encoding of one character (as `crypto.update` applies to strings). -/
def utf8EncodeChar (c : Char) : List Nat :=
  let u := c.toNat
  if u < 128 then [u]
  else if u < 2048 then [192 + u / 64, 128 + u % 64]
  else if u < 65536 then [224 + u / 4096, 128 + (u / 64) % 64, 128 + u % 64]
  else [240 + u / 262144, 128 + (u / 4096) % 64, 128 + (u / 64) % 64,
        128 + u % 64]

/-- UTF-8 bytes of a string. -/
def strBytes (s : String) : List Nat := s.data.flatMap utf8EncodeChar

/-- Whether a character is a lowercase hexadecimal digit (a decimal digit
or one of the letters `a` through `f`). -/
def isLowerHexDigit (c : Char) : Bool :=
  (48 ≤ c.toNat && c.toNat ≤ 57) || (97 ≤ c.toNat && c.toNat ≤ 102)

/-! ## Configuration (client.js, lines 7-14) and the Signer -/

/-- `CONFIG.TOKEN` of client.js. -/
def TOKEN : String := "interview_token_123"

/-- `new URL(CONFIG.API_URL).pathname` for
`CONFIG.API_URL = 'http://localhost:3000/device/real/query'` (client.js,
line 52; URL parsing is a node builtin, its pathname on this fixed URL is
the fixed path below). -/
def urlPath : String := "/device/real/query"

/-- `CONFIG.RATE_LIMIT_MS` of client.js. -/
def RATE_LIMIT_MS : Nat := 1000

/-- `CONFIG.BATCH_SIZE` of client.js. -/
def BATCH_SIZE : Nat := 10

/-- `CONFIG.MAX_RETRIES` of client.js. -/
def MAX_RETRIES : Nat := 3

/-- `CONFIG.RETRY_DELAY_MS` of client.js. -/
def RETRY_DELAY_MS : Nat := 2000

/-- `generateSignature` (client.js, lines 20-23):
`crypto.createHash('md5').update(url + token + timestamp).digest('hex')` —
the MD5 digest of the UTF-8 bytes of the concatenation, as lowercase hex. -/
def generateSignature (url token timestamp : String) : String :=
  md5Hex (strBytes (url ++ token ++ timestamp))

/-! ## Batcher: `createBatches` (client.js, lines 39-45)

The source loop is `for (let i = 0; i < array.length; i += batchSize)
batches.push(array.slice(i, i + batchSize))`.  `createBatchesAux` mirrors
the loop with an explicit fuel bounding the number of iterations; `none`
means the allotted iterations were exhausted before the loop exited, so
divergence of the loop is `∀ fuel, ... = none`.  `array.slice(i, i + b)`
for natural `i`, `b` is `(l.drop i).take b`. -/

def createBatchesAux (l : List α) (b : Nat) : Nat → Nat → Option (List (List α))
  | fuel, i =>
    if i < l.length then
      match fuel with
      | 0 => none
      | f + 1 =>
        match createBatchesAux l b f (i + b) with
        | none => none
        | some r => some ((l.drop i).take b :: r)
    else some []

/-- `createBatches` run with fuel `l.length`, which suffices for any
positive batch size (one loop iteration consumes at least one element). -/
def createBatches (l : List α) (b : Nat) : Option (List (List α)) :=
  createBatchesAux l b l.length 0

/-- The loop of `createBatches` terminates on `(l, b)`. -/
def createBatchesHalts (l : List α) (b : Nat) : Prop :=
  ∃ fuel, (createBatchesAux l b fuel 0).isSome = true

/-- Reference chunking function used in proofs: groups of size `b + 1`. -/
def chunkList (b : Nat) : List α → List (List α)
  | [] => []
  | x :: xs => ((x :: xs).take (b + 1)) :: chunkList b ((x :: xs).drop (b + 1))
  termination_by l => l.length
  decreasing_by simp [List.drop_succ_cons]; omega

/-! ## Scheduler: `RateLimitedQueue.execute` (client.js, lines 100-111)

`execute(fn)` reads `now = Date.now()`, computes
`timeSinceLastRequest = now - this.lastRequestTime`; if that is below
`rateLimitMs` it awaits `sleep(rateLimitMs - timeSinceLastRequest)`; then
sets `this.lastRequestTime = Date.now()` and returns `await fn()`.  Times
are integers (epoch milliseconds); `drift` is the nonnegative time that
passes between the end of the sleep and the second `Date.now()` read. -/

/-- The sleep duration `execute` requests for a call arriving at `now`
with previous admission time `last`. -/
def waitFor (rate last now : Int) : Int :=
  if now - last < rate then rate - (now - last) else 0

/-- The value stored into `this.lastRequestTime` by this call. -/
def recordTime (rate last now : Int) (drift : Nat) : Int :=
  now + waitFor rate last now + drift

/-- The admission time with an exact sleep and no drift. -/
def admitTime (rate last now : Int) : Int :=
  if now - last < rate then last + rate else now

/-- One `execute(fn)` call: the result is exactly `fn`'s outcome (value or
exception), and the state update to `lastRequestTime` does not depend on
that outcome because it happens before `fn` runs. -/
def executeStep (rate last now : Int) (drift : Nat) (fn : Except ε α) :
    Except ε α × Int :=
  (fn, recordTime rate last now drift)

/-- The recorded admission times of a sequence of `execute` calls, each
given by its arrival time and its drift, starting from stored time
`last` (initially 0 in the constructor). -/
def runQueue (rate : Int) : List (Int × Nat) → Int → List Int
  | [], _ => []
  | (now, drift) :: rest, last =>
      recordTime rate last now drift :: runQueue rate rest (recordTime rate last now drift)

/-! ## RequestExecutor: `makeRequest` (client.js, lines 50-81)

The network is an oracle mapping the attempt number (the source's
`retryCount`) to that attempt's outcome; `Date.now().toString()` on
attempt `k` is `Nat.repr (clock k)`.  The source retries while
`error.response?.status === 429 || error.code === 'ECONNREFUSED'` and
`retryCount < CONFIG.MAX_RETRIES`, sleeping `CONFIG.RETRY_DELAY_MS`
before each retry; at the bound it throws a fresh retries-exhausted
`Error`, and any other error is rethrown unchanged. -/

/-- One device observation from a success response. -/
structure DeviceReading where
  sn : String
  power : String
  status : String
  deriving DecidableEq

/-- The outcome of one underlying network call: a success payload, or a
failure with an optional HTTP status (`error.response?.status`) and an
optional error code (`error.code`). -/
inductive CallOutcome where
  | success (data : List DeviceReading)
  | failure (status : Option Nat) (code : Option String)
  deriving DecidableEq

/-- The retry guard of client.js line 70:
`error.response?.status === 429 || error.code === 'ECONNREFUSED'`. -/
def isRetryableErr : CallOutcome → Bool
  | CallOutcome.success _ => false
  | CallOutcome.failure st code =>
      st == some 429 || code == some ("ECONNREFUSED")

/-- How one `makeRequest` call resolves: success data, the
retries-exhausted `Error` thrown at line 76, or a rethrown original
error (line 79). -/
inductive ReqOutcome where
  | ok (data : List DeviceReading)
  | retriesExhausted (cause : CallOutcome)
  | failed (cause : CallOutcome)
  deriving DecidableEq

/-- Trace of one `makeRequest` call: the resolution, the
`(timestamp, signature)` header pair of every attempt in order, and the
backoff sleeps performed. -/
structure ReqTrace where
  outcome : ReqOutcome
  attempts : List (Nat × String)
  sleeps : List Nat
  deriving DecidableEq

/-- Body of `makeRequest`, with the guard `retryCount < MAX_RETRIES`
carried as the remaining retry budget `remaining = maxRetries - retryCount`
(positive iff the guard holds, and decremented exactly when `retryCount`
is incremented), which makes the recursion structural. -/
def makeRequestGo (oracle : Nat → CallOutcome) (clock : Nat → Nat)
    (retryDelay : Nat) (remaining rc : Nat) : ReqTrace :=
  let t := clock rc
  let sig := generateSignature urlPath TOKEN (Nat.repr t)
  match oracle rc with
  | CallOutcome.success d => ⟨ReqOutcome.ok d, [(t, sig)], []⟩
  | CallOutcome.failure st code =>
    if isRetryableErr (CallOutcome.failure st code) then
      match remaining with
      | r + 1 =>
        let rest := makeRequestGo oracle clock retryDelay r (rc + 1)
        ⟨rest.outcome, (t, sig) :: rest.attempts, retryDelay :: rest.sleeps⟩
      | 0 => ⟨ReqOutcome.retriesExhausted (CallOutcome.failure st code),
              [(t, sig)], []⟩
    else ⟨ReqOutcome.failed (CallOutcome.failure st code), [(t, sig)], []⟩

/-- `makeRequest(snList, retryCount)` starting at `retryCount = rc`. -/
def makeRequestAux (oracle : Nat → CallOutcome) (clock : Nat → Nat)
    (maxRetries retryDelay : Nat) (rc : Nat) : ReqTrace :=
  makeRequestGo oracle clock retryDelay (maxRetries - rc) rc

/-- A top-level `makeRequest(snList)` call (`retryCount` defaults to 0). -/
def makeRequest (oracle : Nat → CallOutcome) (clock : Nat → Nat)
    (maxRetries retryDelay : Nat) : ReqTrace :=
  makeRequestAux oracle clock maxRetries retryDelay 0

/-- The header pair attempt `j` carries: the fresh timestamp `clock j` and
the signature recomputed from it (client.js, lines 51-53). -/
def attemptOf (clock : Nat → Nat) (j : Nat) : Nat × String :=
  (clock j, generateSignature urlPath TOKEN (Nat.repr (clock j)))

/-! ## Timed issuance model (for the interaction of retries with the
rate limiter)

Each attempt's oracle entry also gives the duration until its response
(or connection error) arrives.  `makeRequestIssGo` returns the start
times of every network issuance of one `makeRequest` call together with
its completion time: a retry is issued `RETRY_DELAY_MS` after the failure
response, directly inside `makeRequest`, without passing through
`RateLimitedQueue.execute` again.  `runBatchIssuances` is the batch loop
of `fetchAllDeviceData` (lines 139-155): each iteration awaits
`queue.execute(() => makeRequest(batch))`, so only the initial attempt of
each batch is admitted by the queue; sleeps are exact and drift-free. -/

def makeRequestIssGo (ob : Nat → CallOutcome × Nat) (retryDelay : Nat)
    (remaining rc : Nat) (t : Int) : List Int × Int :=
  let o := (ob rc).1
  let dur := (ob rc).2
  if isRetryableErr o then
    match remaining with
    | r + 1 =>
      let rest := makeRequestIssGo ob retryDelay r (rc + 1) (t + dur + retryDelay)
      (t :: rest.1, rest.2)
    | 0 => ([t], t + dur)
  else ([t], t + dur)

/-- Issuance times and completion time of one `makeRequest` call started
at time `t`. -/
def makeRequestIss (ob : Nat → CallOutcome × Nat) (maxRetries retryDelay : Nat)
    (t : Int) : List Int × Int :=
  makeRequestIssGo ob retryDelay maxRetries 0 t

/-- Per-batch issuance-time lists of the batch loop: one oracle per batch,
`t` the current time, `last` the queue's stored `lastRequestTime`. -/
def runBatchIssuances (rate : Int) (maxRetries retryDelay : Nat) :
    List (Nat → CallOutcome × Nat) → Int → Int → List (List Int)
  | [], _, _ => []
  | ob :: rest, t, last =>
      let a := admitTime rate last t
      let r := makeRequestIss ob maxRetries retryDelay a
      r.1 :: runBatchIssuances rate maxRetries retryDelay rest r.2 a

/-- The queue admission times of the batch loop, one per batch. -/
def runAdmissions (rate : Int) (maxRetries retryDelay : Nat) :
    List (Nat → CallOutcome × Nat) → Int → Int → List Int
  | [], _, _ => []
  | ob :: rest, t, last =>
      let a := admitTime rate last t
      a :: runAdmissions rate maxRetries retryDelay rest
            (makeRequestIss ob maxRetries retryDelay a).2 a

/-- Adjacent-gap check: every consecutive pair of times is at least `d`
apart. -/
def gapsAtLeast (d : Int) : List Int → Bool
  | a :: b :: rest => decide (a + d ≤ b) && gapsAtLeast d (b :: rest)
  | _ => true

/-- Concrete batch oracle: the first attempt fails instantly with
`ECONNREFUSED`, the retry succeeds after 1ms. -/
def obRetryThenOk : Nat → CallOutcome × Nat := fun rc =>
  if rc = 0 then (CallOutcome.failure none (some ("ECONNREFUSED")), 0)
  else (CallOutcome.success [], 1)

/-- Concrete batch oracle: the first attempt succeeds after 5ms. -/
def obOkFast : Nat → CallOutcome × Nat := fun _ => (CallOutcome.success [], 5)

/-! ## Aggregator: the batch loop of `fetchAllDeviceData` (lines 139-155)

Each iteration runs the body
`try { const result = await queue.execute(() => makeRequest(batch));
allResults.push(...result.data); successCount += batch.length; }
catch { failureCount += batch.length; }`, pairing each batch with the
outcome its `makeRequest` resolved to.  The result is the collected
readings in arrival order, `successCount`, and `failureCount`. -/

def processBatches :
    List (List String × Except ε (List DeviceReading)) →
      List DeviceReading × Nat × Nat
  | [] => ([], 0, 0)
  | (batch, res) :: rest =>
    let r := processBatches rest
    match res with
    | Except.ok d => (d ++ r.1, r.2.1 + batch.length, r.2.2)
    | Except.error _ => (r.1, r.2.1, r.2.2 + batch.length)

/-! # Theorems -/

/-! Sanity: the MD5 model reproduces RFC 1321 test vectors, including a
multi-block message exercising the padding. -/

theorem md5Hex_rfc_empty :
    md5Hex (strBytes ("")) = ("d41d8cd98f00b204e9800998ecf8427e") := by decide

theorem md5Hex_rfc_abc :
    md5Hex (strBytes ("abc")) = ("900150983cd24fb0d6963f7d28e17f72") := by
  decide

/-! ## Signer -/

theorem hexDigitChar_mem (n : Nat) (h : n < 16) :
    isLowerHexDigit (hexDigitChar n) = true := by
  interval_cases n <;> decide

theorem length_flatMap_byteToHex (bs : List Nat) :
    (bs.flatMap byteToHex).length = 2 * bs.length := by
  induction bs with
  | nil => rfl
  | cons b rest ih => simp [List.flatMap_cons, ih, byteToHex]; omega

theorem md5Bytes_length (m : List Nat) : (md5Bytes m).length = 16 := by
  simp [md5Bytes, wordLE]

theorem md5Hex_length (m : List Nat) : (md5Hex m).length = 32 := by
  show ((md5Bytes m).flatMap byteToHex).length = 32
  rw [length_flatMap_byteToHex, md5Bytes_length]

theorem md5Hex_chars (m : List Nat) :
    ∀ c ∈ (md5Hex m).data, isLowerHexDigit c = true := by
  intro c hc
  have hc' : c ∈ (md5Bytes m).flatMap byteToHex := hc
  rw [List.mem_flatMap] at hc'
  obtain ⟨b, -, hb⟩ := hc'
  simp only [byteToHex, List.mem_cons, List.not_mem_nil, or_false] at hb
  rcases hb with rfl | rfl
  · exact hexDigitChar_mem _ (Nat.mod_lt _ (by omega))
  · exact hexDigitChar_mem _ (Nat.mod_lt _ (by omega))

/-- C7: for all (path, secret, timestamp) triples, `generateSignature` is
the keyed hash digest (MD5) of the concatenation `path ++ secret ++
timestamp` in that fixed order, rendered as a 32-character lowercase
hexadecimal string; being a pure function of its arguments it is
deterministic. -/
theorem generateSignature_spec (url token timestamp : String) :
    generateSignature url token timestamp
        = md5Hex (strBytes (url ++ token ++ timestamp)) ∧
      (generateSignature url token timestamp).length = 32 ∧
      ∀ c ∈ (generateSignature url token timestamp).data,
        isLowerHexDigit c = true :=
  ⟨rfl, md5Hex_length _, md5Hex_chars _⟩

/-- Witness for C7 at the client's own path and token. -/
theorem generateSignature_spec_witness :
    (generateSignature urlPath TOKEN ("1700000000000")).length = 32 :=
  (generateSignature_spec urlPath TOKEN ("1700000000000")).2.1

/-! ## Scheduler (`RateLimitedQueue`) -/

theorem recordTime_ge (rate last now : Int) (drift : Nat) :
    last + rate ≤ recordTime rate last now drift := by
  unfold recordTime waitFor
  split <;> omega

theorem runQueue_chain (rate : Int) (calls : List (Int × Nat)) (last : Int) :
    List.Chain (fun a b => a + rate ≤ b) last (runQueue rate calls last) := by
  induction calls generalizing last with
  | nil => exact List.Chain.nil
  | cons c rest ih =>
      exact List.Chain.cons (recordTime_ge rate last c.1 c.2) (ih _)

theorem chain_imp_chain' {α : Type} {R : α → α → Prop} :
    ∀ {a : α} {l : List α}, List.Chain R a l → List.Chain' R (a :: l) := by
  intro a l
  induction l generalizing a with
  | nil => exact fun _ => List.chain'_singleton a
  | cons b tl ih =>
      intro h
      cases h with
      | cons hr hc => exact List.chain'_cons.2 ⟨hr, ih hc⟩

/-- C1: in any sequence of `execute` calls, the recorded start times of
consecutive admissions are at least `rateLimitMs` apart, however long each
admitted operation takes (operation durations only shift later arrival
times, over which the statement is universally quantified); a call whose
elapsed time since the last admission is at least the interval requests no
sleep, and an earlier call sleeps exactly `interval - elapsed`. -/
theorem rateLimit_consecutive_admissions (rate : Int) (calls : List (Int × Nat))
    (last₀ last now : Int) :
    List.Chain' (fun a b => a + rate ≤ b) (runQueue rate calls last₀) ∧
      (rate ≤ now - last → waitFor rate last now = 0) ∧
      (now - last < rate → waitFor rate last now = rate - (now - last)) := by
  refine ⟨(chain_imp_chain' (runQueue_chain rate calls last₀)).tail, ?_, ?_⟩
  · intro h
    unfold waitFor
    split <;> omega
  · intro h
    unfold waitFor
    split <;> omega

/-- Witness for C1: three calls against a 1000ms interval, the second
arriving early (elapsed 400ms, slept 600ms) and the third arriving late
(elapsed 1600ms or more, no sleep). -/
theorem rateLimit_consecutive_admissions_witness :
    List.Chain' (fun a b => a + (1000 : Int) ≤ b)
        (runQueue 1000 [(5000, 0), (5400, 0), (7600, 0)] 0) ∧
      waitFor 1000 5000 7600 = 0 ∧
      waitFor 1000 5000 5400 = 600 := by
  obtain ⟨h₁, h₂, -⟩ :=
    rateLimit_consecutive_admissions 1000 [(5000, 0), (5400, 0), (7600, 0)] 0 5000 7600
  obtain ⟨-, -, h₃⟩ :=
    rateLimit_consecutive_admissions 1000 [(5000, 0), (5400, 0), (7600, 0)] 0 5000 5400
  exact ⟨h₁, h₂ (by decide), (h₃ (by decide)).trans (by decide)⟩

/-- C10: one `execute(fn)` call stores into `lastRequestTime` a single new
value, computed before `fn` runs: the stored time is the same whether `fn`
returns or throws, it exceeds the previous stored time by at least
`rateLimitMs`, and `execute` resolves with exactly `fn`'s outcome —
its value, or its exception unchanged. -/
theorem execute_records_before_fn {ε α : Type} (rate last now : Int)
    (drift : Nat) (fn : Except ε α) (e : ε) (a : α) :
    (executeStep rate last now drift fn).1 = fn ∧
      (executeStep rate last now drift (Except.error e : Except ε α)).2
          = (executeStep rate last now drift (Except.ok a : Except ε α)).2 ∧
      last + rate ≤ (executeStep rate last now drift fn).2 :=
  ⟨rfl, rfl, recordTime_ge rate last now drift⟩

/-! ## Batcher (`createBatches`) -/

theorem chunkList_nil (b : Nat) : chunkList b ([] : List α) = [] := by
  simp [chunkList]

theorem chunkList_cons (b : Nat) (x : α) (xs : List α) :
    chunkList b (x :: xs)
      = ((x :: xs).take (b + 1)) :: chunkList b ((x :: xs).drop (b + 1)) := by
  simp [chunkList]

theorem chunkList_flatten (b : Nat) : ∀ l : List α, (chunkList b l).flatten = l
  | [] => by rw [chunkList_nil]; rfl
  | x :: xs => by
      rw [chunkList_cons, List.flatten_cons,
        chunkList_flatten b ((x :: xs).drop (b + 1)), List.take_append_drop]
  termination_by l => l.length
  decreasing_by simp [List.drop_succ_cons]; omega

theorem chunkList_length (b : Nat) :
    ∀ l : List α, (chunkList b l).length = (l.length + b) / (b + 1)
  | [] => by
      rw [chunkList_nil]
      simp [Nat.div_eq_of_lt (show b < b + 1 by omega)]
  | x :: xs => by
      rw [chunkList_cons, List.length_cons,
        chunkList_length b ((x :: xs).drop (b + 1)), List.length_drop]
      rcases le_or_lt (b + 1) (x :: xs).length with h | h
      · have e : (x :: xs).length + b
            = ((x :: xs).length - (b + 1) + b) + (b + 1) := by omega
        rw [e, Nat.add_div_right _ (by omega)]
      · have e0 : (x :: xs).length - (b + 1) = 0 := by omega
        rw [e0, Nat.zero_add, Nat.div_eq_of_lt (by omega)]
        have : ((x :: xs).length + b) / (b + 1) = 1 := by
          apply Nat.div_eq_of_lt_le
          · simp only [List.length_cons] at h ⊢
            omega
          · simp only [List.length_cons] at h ⊢
            omega
        omega
  termination_by l => l.length
  decreasing_by simp [List.drop_succ_cons]; omega

theorem chunkList_get (b : Nat) :
    ∀ (l : List α) (i : Nat),
      (chunkList b l)[i]?
        = if i * (b + 1) < l.length
          then some ((l.drop (i * (b + 1))).take (b + 1)) else none
  | [], i => by rw [chunkList_nil]; simp
  | x :: xs, 0 => by
      rw [chunkList_cons]
      simp
  | x :: xs, i + 1 => by
      rw [chunkList_cons, List.getElem?_cons_succ,
        chunkList_get b ((x :: xs).drop (b + 1)) i, List.length_drop,
        List.drop_drop]
      have e1 : (i + 1) * (b + 1) = i * (b + 1) + (b + 1) := by ring
      rw [e1, Nat.add_comm (i * (b + 1)) (b + 1)]
      generalize i * (b + 1) = m
      rcases Nat.lt_or_ge (b + 1 + m) (x :: xs).length with h | h
      · rw [if_pos (by omega), if_pos h]
      · rw [if_neg (by omega), if_neg (by omega)]
  termination_by l => l.length
  decreasing_by simp [List.drop_succ_cons]; omega

theorem chunkList_sizes (b : Nat) :
    ∀ l : List α, ∀ c ∈ chunkList b l, c.length ≤ b + 1
  | [] => by rw [chunkList_nil]; intro c hc; cases hc
  | x :: xs => by
      rw [chunkList_cons]
      intro c hc
      rcases List.mem_cons.1 hc with rfl | hc
      · exact List.length_take_le _ _
      · exact chunkList_sizes b ((x :: xs).drop (b + 1)) c hc
  termination_by l => l.length
  decreasing_by simp [List.drop_succ_cons]; omega

theorem chunkList_full (b : Nat) (l : List α) (i : Nat)
    (h : i + 1 < (chunkList b l).length) :
    ∃ c, (chunkList b l)[i]? = some c ∧ c.length = b + 1 := by
  rw [chunkList_length] at h
  have hmul : (i + 2) * (b + 1) ≤ l.length + b :=
    (Nat.le_div_iff_mul_le (by omega)).1 (by omega)
  have e2 : (i + 2) * (b + 1) = i * (b + 1) + 2 * b + 2 := by ring
  rw [chunkList_get, if_pos (by omega)]
  refine ⟨_, rfl, ?_⟩
  rw [List.length_take, List.length_drop]
  omega

theorem createBatchesAux_eq_chunkList (b : Nat) :
    ∀ (fuel : Nat) (i : Nat) (l : List α), l.length - i ≤ fuel →
      createBatchesAux l (b + 1) fuel i = some (chunkList b (l.drop i))
  | 0, i, l, h => by
      rw [createBatchesAux, if_neg (by omega),
        List.drop_eq_nil_of_le (by omega), chunkList_nil]
  | fuel + 1, i, l, h => by
      rw [createBatchesAux]
      rcases Nat.lt_or_ge i l.length with hi | hi
      · rw [if_pos hi,
          createBatchesAux_eq_chunkList b fuel (i + (b + 1)) l (by omega)]
        have hdd : List.drop (i + (b + 1)) l = List.drop (b + 1) (List.drop i l) :=
          (List.drop_drop (b + 1) i l).symm
        rw [hdd]
        rcases hd : l.drop i with _ | ⟨y, ys⟩
        · exfalso
          have := congrArg List.length hd
          simp [List.length_drop] at this
          omega
        · rw [chunkList_cons]
      · rw [if_neg (by omega), List.drop_eq_nil_of_le (by omega), chunkList_nil]

theorem createBatches_eq_chunkList (l : List α) (b : Nat) :
    createBatches l (b + 1) = some (chunkList b l) := by
  rw [createBatches,
    createBatchesAux_eq_chunkList b l.length 0 l (by omega), List.drop_zero]

/-- C2: for every list of length `n` and every batch size `b > 0`,
`createBatches` returns exactly `⌈n / b⌉` batches; batch `i` holds the
input elements at positions `[i*b, min((i+1)*b, n))` in original order, the
concatenation of the batches is the input, every batch except possibly the
last has exactly `b` elements, and no batch exceeds `b` elements. -/
theorem createBatches_spec (l : List α) (b : Nat) (hb : 0 < b) :
    ∃ r, createBatches l b = some r ∧
      r.length = (l.length + b - 1) / b ∧
      r.flatten = l ∧
      (∀ i, r[i]?
          = if i * b < l.length then some ((l.drop (i * b)).take b) else none) ∧
      (∀ c ∈ r, c.length ≤ b) ∧
      (∀ i, i + 1 < r.length → ∃ c, r[i]? = some c ∧ c.length = b) := by
  obtain ⟨b, rfl⟩ : ∃ b', b = b' + 1 := ⟨b - 1, by omega⟩
  refine ⟨chunkList b l, createBatches_eq_chunkList l b, ?_, chunkList_flatten b l,
    chunkList_get b l, chunkList_sizes b l, chunkList_full b l⟩
  rw [chunkList_length]
  have e : l.length + (b + 1) - 1 = l.length + b := by omega
  rw [e]

/-- Witness for C2: five elements in batches of two give batches
`[0,1], [2,3], [4]`. -/
theorem createBatches_spec_witness :
    ∃ r, createBatches [0, 1, 2, 3, 4] 2 = some r ∧
      r.length = ([0, 1, 2, 3, 4].length + 2 - 1) / 2 ∧
      r.flatten = [0, 1, 2, 3, 4] ∧
      (∀ i, r[i]?
          = if i * 2 < [0, 1, 2, 3, 4].length
            then some (([0, 1, 2, 3, 4].drop (i * 2)).take 2) else none) ∧
      (∀ c ∈ r, c.length ≤ 2) ∧
      (∀ i, i + 1 < r.length → ∃ c, r[i]? = some c ∧ c.length = 2) :=
  createBatches_spec [0, 1, 2, 3, 4] 2 (by decide)

theorem createBatchesAux_size_zero (l : List α) (i : Nat) (hi : i < l.length) :
    ∀ fuel, createBatchesAux l 0 fuel i = none := by
  intro fuel
  induction fuel with
  | zero => rw [createBatchesAux, if_pos hi]
  | succ f ih =>
      rw [createBatchesAux, if_pos hi]
      have : i + 0 = i := rfl
      rw [this, ih]

/-- C9 counterexample: with batch size 0 and a nonempty input, the loop of
`createBatches` never terminates — no iteration budget makes it produce
anything, so in particular it does not fail fast with an error. -/
theorem createBatches_size_zero_no_halt :
    ¬ createBatchesHalts (["SN-000"] : List String) 0 := by
  rintro ⟨fuel, h⟩
  rw [createBatchesAux_size_zero (["SN-000"] : List String) 0 (by decide) fuel] at h
  cases h

/-- C9 (amended): `createBatches` performs no batch-size validation and
signals no error.  For every `size > 0` it terminates and returns a value;
for `size = 0` it returns the empty batch list on an empty input, and on a
nonempty input its loop never terminates (no fuel returns a result), so no
fatal error is ever signalled. -/
theorem createBatches_termination (l : List α) (b : Nat) :
    (0 < b → ∃ r, createBatches l b = some r) ∧
      (l ≠ [] → ∀ fuel, createBatchesAux l 0 fuel 0 = none) ∧
      (∀ fuel, createBatchesAux ([] : List α) 0 fuel 0 = some []) := by
  refine ⟨?_, ?_, ?_⟩
  · intro hb
    obtain ⟨b, rfl⟩ : ∃ b', b = b' + 1 := ⟨b - 1, by omega⟩
    exact ⟨chunkList b l, createBatches_eq_chunkList l b⟩
  · intro hl
    exact createBatchesAux_size_zero l 0 (by cases l <;> simp_all)
  · intro fuel
    rw [createBatchesAux.eq_def]
    simp

/-- Witness for C9 (amended): batch size 1 terminates on a two-element
list, batch size 0 on the same list returns nothing even with fuel 5. -/
theorem createBatches_termination_witness :
    (∃ r, createBatches (["SN-000", "SN-001"] : List String) 1 = some r) ∧
      createBatchesAux (["SN-000", "SN-001"] : List String) 0 5 0 = none := by
  obtain ⟨h1, h2, -⟩ := createBatches_termination (["SN-000", "SN-001"] : List String) 1
  exact ⟨h1 (by decide), h2 (by decide) 5⟩

/-! ## RequestExecutor (`makeRequest`) -/

theorem makeRequestGo_all_retryable (oracle : Nat → CallOutcome)
    (clock : Nat → Nat) (rD : Nat) :
    ∀ (rem rc : Nat),
      (∀ k, rc ≤ k → k ≤ rc + rem → isRetryableErr (oracle k) = true) →
      makeRequestGo oracle clock rD rem rc
        = ⟨ReqOutcome.retriesExhausted (oracle (rc + rem)),
           (List.range' rc (rem + 1)).map (attemptOf clock),
           List.replicate rem rD⟩ := by
  intro rem
  induction rem with
  | zero =>
      intro rc h
      have h0 := h rc (le_refl rc) (by omega)
      cases ho : oracle rc with
      | success d => rw [ho] at h0; simp [isRetryableErr] at h0
      | failure st code =>
          rw [ho] at h0
          rw [makeRequestGo.eq_def, ho]
          simp [h0, attemptOf, ho, List.range'_succ]
  | succ r ih =>
      intro rc h
      have h0 := h rc (le_refl rc) (by omega)
      cases ho : oracle rc with
      | success d => rw [ho] at h0; simp [isRetryableErr] at h0
      | failure st code =>
          rw [ho] at h0
          rw [makeRequestGo.eq_def, ho]
          simp only [h0, if_true]
          rw [ih (rc + 1) (fun k hk1 hk2 => h k (by omega) (by omega))]
          have e : rc + 1 + r = rc + (r + 1) := by omega
          simp [attemptOf, List.range'_succ, e, List.replicate_succ]

/-- C3: if every attempt fails with a retryable cause, `makeRequest`
performs exactly `maxRetries + 1` attempts (4 with the default
`maxRetries = 3`), sleeping the fixed backoff `retryDelay` before each of
the `maxRetries` retries (the same fixed delay every time, not
exponential), and resolves with the retries-exhausted error. -/
theorem makeRequest_exhausts_after_max_retries (oracle : Nat → CallOutcome)
    (clock : Nat → Nat) (mR rD : Nat)
    (h : ∀ k, k ≤ mR → isRetryableErr (oracle k) = true) :
    (makeRequest oracle clock mR rD).outcome
        = ReqOutcome.retriesExhausted (oracle mR) ∧
      (makeRequest oracle clock mR rD).attempts.length = mR + 1 ∧
      (makeRequest oracle clock mR rD).sleeps = List.replicate mR rD := by
  have e := makeRequestGo_all_retryable oracle clock rD mR 0
    (fun k h1 h2 => h k (by omega))
  unfold makeRequest makeRequestAux
  rw [Nat.sub_zero, e]
  simp

/-- Witness for C3 with the default configuration `maxRetries = 3`,
`retryDelay = 2000`: an always-429 endpoint gives 4 attempts and three
2000ms backoffs. -/
theorem makeRequest_exhausts_witness :
    (makeRequest (fun _ => CallOutcome.failure (some 429) none) id 3 2000).outcome
        = ReqOutcome.retriesExhausted (CallOutcome.failure (some 429) none) ∧
      (makeRequest (fun _ => CallOutcome.failure (some 429) none) id 3 2000).attempts.length
        = 4 ∧
      (makeRequest (fun _ => CallOutcome.failure (some 429) none) id 3 2000).sleeps
        = List.replicate 3 2000 :=
  makeRequest_exhausts_after_max_retries
    (fun _ => CallOutcome.failure (some 429) none) id 3 2000 (fun _ _ => rfl)

theorem makeRequestGo_nonretryable (oracle : Nat → CallOutcome)
    (clock : Nat → Nat) (rD rem rc : Nat) (st : Option Nat)
    (code : Option String) (ho : oracle rc = CallOutcome.failure st code)
    (h : isRetryableErr (oracle rc) = false) :
    makeRequestGo oracle clock rD rem rc
      = ⟨ReqOutcome.failed (oracle rc), [attemptOf clock rc], []⟩ := by
  rw [ho] at h
  rw [makeRequestGo.eq_def, ho]
  simp [h, attemptOf, ho]

theorem makeRequestGo_attempts_pos (oracle : Nat → CallOutcome)
    (clock : Nat → Nat) (rD rem rc : Nat) :
    0 < (makeRequestGo oracle clock rD rem rc).attempts.length := by
  rw [makeRequestGo.eq_def]
  cases ho : oracle rc with
  | success d => simp
  | failure st code =>
      cases h : isRetryableErr (CallOutcome.failure st code) with
      | false => simp [h]
      | true =>
          cases rem with
          | zero => simp [h]
          | succ r => simp [h]

/-- C4: `makeRequest` retries exactly the retryable failure classes
(HTTP 429 or `ECONNREFUSED`) and no others: any other failure is rethrown
unchanged after exactly one attempt with no backoff sleep, while a
retryable first failure leads to at least a second attempt whenever the
retry budget is positive. -/
theorem makeRequest_retries_only_retryable (oracle : Nat → CallOutcome)
    (clock : Nat → Nat) (mR rD : Nat) :
    (∀ st code, oracle 0 = CallOutcome.failure st code →
        isRetryableErr (oracle 0) = false →
        makeRequest oracle clock mR rD
          = ⟨ReqOutcome.failed (oracle 0), [attemptOf clock 0], []⟩) ∧
      (isRetryableErr (oracle 0) = true → 0 < mR →
        2 ≤ (makeRequest oracle clock mR rD).attempts.length) := by
  constructor
  · intro st code ho h
    unfold makeRequest makeRequestAux
    exact makeRequestGo_nonretryable oracle clock rD (mR - 0) 0 st code ho h
  · intro h hm
    obtain ⟨m, rfl⟩ : ∃ m, mR = m + 1 := ⟨mR - 1, by omega⟩
    unfold makeRequest makeRequestAux
    cases ho : oracle 0 with
    | success d => rw [ho] at h; simp [isRetryableErr] at h
    | failure st code =>
        rw [ho] at h
        rw [Nat.sub_zero, makeRequestGo.eq_def, ho]
        have hp := makeRequestGo_attempts_pos oracle clock rD m 1
        simp [h]
        omega

/-- Witness for C4: a 401 response fails after exactly one attempt with
the error propagated; an `ECONNREFUSED` failure leads to a second
attempt. -/
theorem makeRequest_retries_only_retryable_witness :
    makeRequest (fun _ => CallOutcome.failure (some 401) none) id 3 2000
        = ⟨ReqOutcome.failed (CallOutcome.failure (some 401) none),
           [attemptOf id 0], []⟩ ∧
      2 ≤ (makeRequest (fun _ => CallOutcome.failure none (some ("ECONNREFUSED"))) id 3
            2000).attempts.length :=
  ⟨(makeRequest_retries_only_retryable
      (fun _ => CallOutcome.failure (some 401) none) id 3 2000).1
        (some 401) none rfl rfl,
   (makeRequest_retries_only_retryable
      (fun _ => CallOutcome.failure none (some ("ECONNREFUSED"))) id 3 2000).2
        rfl (by decide)⟩

theorem makeRequestGo_success_after (oracle : Nat → CallOutcome)
    (clock : Nat → Nat) (rD : Nat) (d : List DeviceReading) :
    ∀ (rem rc k : Nat), rc ≤ k → k ≤ rc + rem →
      (∀ j, rc ≤ j → j < k → isRetryableErr (oracle j) = true) →
      oracle k = CallOutcome.success d →
      makeRequestGo oracle clock rD rem rc
        = ⟨ReqOutcome.ok d,
           (List.range' rc (k - rc + 1)).map (attemptOf clock),
           List.replicate (k - rc) rD⟩ := by
  intro rem
  induction rem with
  | zero =>
      intro rc k h1 h2 hfail hsucc
      have hk : k = rc := by omega
      subst hk
      rw [makeRequestGo.eq_def, hsucc]
      simp [attemptOf, List.range'_succ]
  | succ r ih =>
      intro rc k h1 h2 hfail hsucc
      rcases Nat.eq_or_lt_of_le h1 with rfl | hlt
      · rw [makeRequestGo.eq_def, hsucc]
        simp [attemptOf, List.range'_succ]
      · have h0 := hfail rc (le_refl rc) hlt
        cases ho : oracle rc with
        | success d' => rw [ho] at h0; simp [isRetryableErr] at h0
        | failure st code =>
            rw [ho] at h0
            rw [makeRequestGo.eq_def, ho]
            simp only [h0, if_true]
            rw [ih (rc + 1) k (by omega) (by omega)
              (fun j hj1 hj2 => hfail j (by omega) hj2) hsucc]
            have e1 : k - rc + 1 = (k - (rc + 1) + 1) + 1 := by omega
            have e2 : k - rc = (k - (rc + 1)) + 1 := by omega
            rw [e1, e2]
            simp [h0, attemptOf, List.range'_succ, List.replicate_succ]

/-- C6: if the underlying call fails with a retryable cause exactly
`k < maxRetries` times and then succeeds, `makeRequest` returns the
success result, the underlying call is invoked exactly `k + 1` times, and
attempt `j` carries the freshly captured timestamp `clock j` with the
signature recomputed from it; with a strictly advancing clock (time always
passes between attempts — the backoff sleep is positive) the
`(timestamp, signature)` pairs of the attempts are pairwise distinct. -/
theorem makeRequest_success_after_retries (oracle : Nat → CallOutcome)
    (clock : Nat → Nat) (mR rD k : Nat) (d : List DeviceReading)
    (hk : k < mR)
    (hfail : ∀ j, j < k → isRetryableErr (oracle j) = true)
    (hsucc : oracle k = CallOutcome.success d)
    (hclock : ∀ i j, i < j → j ≤ k → clock i < clock j) :
    (makeRequest oracle clock mR rD).outcome = ReqOutcome.ok d ∧
      (makeRequest oracle clock mR rD).attempts.length = k + 1 ∧
      (makeRequest oracle clock mR rD).attempts
          = (List.range (k + 1)).map (attemptOf clock) ∧
      (makeRequest oracle clock mR rD).attempts.Pairwise (· ≠ ·) := by
  have e := makeRequestGo_success_after oracle clock rD d mR 0 k (by omega)
    (by omega) (fun j hj1 hj2 => hfail j hj2) hsucc
  unfold makeRequest makeRequestAux
  rw [Nat.sub_zero, e]
  have hrange : List.range' 0 (k - 0 + 1) = List.range (k + 1) := by
    rw [List.range_eq_range', Nat.sub_zero]
  refine ⟨rfl, by simp, by rw [hrange], ?_⟩
  rw [hrange]
  have hpw : List.Pairwise (fun i j => attemptOf clock i ≠ attemptOf clock j)
      (List.range (k + 1)) := by
    refine (List.pairwise_lt_range (k + 1)).imp_of_mem ?_
    intro i j hi hj hij heq
    have hj' : j ≤ k := by
      have := List.mem_range.1 hj
      omega
    have hc := hclock i j hij hj'
    have : clock i = clock j := congrArg Prod.fst heq
    omega
  exact List.Pairwise.map (attemptOf clock) (fun i j hij => hij) hpw

/-- Witness for C6: one 429 failure then success, `maxRetries = 3`,
clock advancing one per attempt. -/
theorem makeRequest_success_after_retries_witness :
    (makeRequest
        (fun j => if j = 0 then CallOutcome.failure (some 429) none
          else CallOutcome.success [⟨"SN-000", "3.2 kW", "Online"⟩])
        id 3 2000).outcome
      = ReqOutcome.ok [⟨"SN-000", "3.2 kW", "Online"⟩] ∧
      (makeRequest
          (fun j => if j = 0 then CallOutcome.failure (some 429) none
            else CallOutcome.success [⟨"SN-000", "3.2 kW", "Online"⟩])
          id 3 2000).attempts.length = 2 ∧
      (makeRequest
          (fun j => if j = 0 then CallOutcome.failure (some 429) none
            else CallOutcome.success [⟨"SN-000", "3.2 kW", "Online"⟩])
          id 3 2000).attempts
        = (List.range 2).map (attemptOf id) ∧
      (makeRequest
          (fun j => if j = 0 then CallOutcome.failure (some 429) none
            else CallOutcome.success [⟨"SN-000", "3.2 kW", "Online"⟩])
          id 3 2000).attempts.Pairwise (· ≠ ·) :=
  makeRequest_success_after_retries
    (fun j => if j = 0 then CallOutcome.failure (some 429) none
      else CallOutcome.success [⟨"SN-000", "3.2 kW", "Online"⟩])
    id 3 2000 1 [⟨"SN-000", "3.2 kW", "Online"⟩] (by decide)
    (fun j hj => by interval_cases j; rfl) rfl
    (fun i j hij hjk => hij)

/-! ## Interaction of retries with the rate limiter -/

theorem makeRequestIssGo_cons (ob : Nat → CallOutcome × Nat) (rD : Nat)
    (rem rc : Nat) (t : Int) :
    ∃ rest, (makeRequestIssGo ob rD rem rc t).1 = t :: rest := by
  rw [makeRequestIssGo.eq_def]
  cases h : isRetryableErr (ob rc).1 with
  | false => exact ⟨[], by simp [h]⟩
  | true =>
      cases rem with
      | zero => exact ⟨[], by simp [h]⟩
      | succ r =>
          exact ⟨(makeRequestIssGo ob rD r (rc + 1) (t + (ob rc).2 + rD)).1,
            by simp [h]⟩

theorem makeRequestIssGo_chain (ob : Nat → CallOutcome × Nat) (rD : Nat) :
    ∀ (rem rc : Nat) (t : Int),
      List.Chain' (fun a b => a + (rD : Int) ≤ b)
        (makeRequestIssGo ob rD rem rc t).1 := by
  intro rem
  induction rem with
  | zero =>
      intro rc t
      rw [makeRequestIssGo.eq_def]
      cases h : isRetryableErr (ob rc).1 <;> simp [h]
  | succ r ih =>
      intro rc t
      rw [makeRequestIssGo.eq_def]
      cases h : isRetryableErr (ob rc).1 with
      | false => simp [h]
      | true =>
          simp only [h, if_true]
          obtain ⟨rest, hrest⟩ :=
            makeRequestIssGo_cons ob rD r (rc + 1) (t + (ob rc).2 + rD)
          refine List.chain'_cons'.2 ⟨?_, ?_⟩
          · intro y hy
            rw [hrest] at hy
            simp at hy
            omega
          · exact ih (rc + 1) _

theorem admitTime_ge (rate last t : Int) : last + rate ≤ admitTime rate last t := by
  unfold admitTime
  split <;> omega

theorem runAdmissions_chain (rate : Int) (mR rD : Nat) :
    ∀ (obs : List (Nat → CallOutcome × Nat)) (t last : Int),
      List.Chain (fun a b => a + rate ≤ b) last
        (runAdmissions rate mR rD obs t last) := by
  intro obs
  induction obs with
  | nil => intro t last; exact List.Chain.nil
  | cons ob rest ih =>
      intro t last
      exact List.Chain.cons (admitTime_ge rate last t) (ih _ _)

theorem runBatchIssuances_heads (rate : Int) (mR rD : Nat) :
    ∀ (obs : List (Nat → CallOutcome × Nat)) (t last : Int),
      (runBatchIssuances rate mR rD obs t last).map List.headI
        = runAdmissions rate mR rD obs t last := by
  intro obs
  induction obs with
  | nil => intro t last; rfl
  | cons ob rest ih =>
      intro t last
      obtain ⟨r, hr⟩ := makeRequestIssGo_cons ob rD mR 0 (admitTime rate last t)
      simp [runBatchIssuances, runAdmissions, makeRequestIss, hr, ih]

theorem runBatchIssuances_batches (rate : Int) (mR rD : Nat) :
    ∀ (obs : List (Nat → CallOutcome × Nat)) (t last : Int),
      ∀ iss ∈ runBatchIssuances rate mR rD obs t last,
        iss ≠ [] ∧ List.Chain' (fun a b => a + (rD : Int) ≤ b) iss := by
  intro obs
  induction obs with
  | nil =>
      intro t last iss h
      simp [runBatchIssuances] at h
  | cons ob rest ih =>
      intro t last iss h
      rw [runBatchIssuances] at h
      rcases List.mem_cons.1 h with rfl | h'
      · constructor
        · obtain ⟨r, hr⟩ := makeRequestIssGo_cons ob rD mR 0 (admitTime rate last t)
          rw [makeRequestIss, hr]
          simp
        · exact makeRequestIssGo_chain ob rD mR 0 _
      · exact ih _ _ iss h'

/-- C5 (amended): only the initial attempt of each batch passes through
the `RateLimitedQueue` admission gate — each batch's first network
issuance happens exactly at that batch's recorded admission time, and
consecutive admissions are at least the configured interval apart — while
retries are issued inside `makeRequest` after the fixed backoff without
re-entering the gate, so a retry starts at least `retryDelay` (not the
rate-limit interval) after the attempt that preceded it, and the
minimum-interval guarantee does not extend to every network issuance. -/
theorem only_first_attempts_admitted (rate : Int) (mR rD : Nat)
    (obs : List (Nat → CallOutcome × Nat)) (t last : Int) :
    (runBatchIssuances rate mR rD obs t last).map List.headI
        = runAdmissions rate mR rD obs t last ∧
      List.Chain' (fun a b => a + rate ≤ b)
        (runAdmissions rate mR rD obs t last) ∧
      ∀ iss ∈ runBatchIssuances rate mR rD obs t last,
        iss ≠ [] ∧ List.Chain' (fun a b => a + (rD : Int) ≤ b) iss :=
  ⟨runBatchIssuances_heads rate mR rD obs t last,
   (chain_imp_chain' (runAdmissions_chain rate mR rD obs t last)).tail,
   runBatchIssuances_batches rate mR rD obs t last⟩

/-- Witness for C5 (amended) on a concrete two-batch run. -/
theorem only_first_attempts_admitted_witness :
    (runBatchIssuances 1000 3 2000 [obRetryThenOk, obOkFast] 5000 0).map List.headI
      = runAdmissions 1000 3 2000 [obRetryThenOk, obOkFast] 5000 0 :=
  (only_first_attempts_admitted 1000 3 2000 [obRetryThenOk, obOkFast] 5000 0).1

/-- C5 counterexample: `rateLimitMs = 1000`, `retryDelay = 2000`; batch 1
fails instantly with `ECONNREFUSED`, its retry at 7000 succeeds at 7001,
and batch 2 is admitted immediately at 7001 because the queue's
`lastRequestTime` still holds batch 1's admission time 5000 — so two
network issuances start 1ms apart, violating the claimed minimum interval
between issuance starts.  The retry itself never re-entered the admission
gate. -/
theorem retry_issuance_gap_below_interval :
    (runBatchIssuances 1000 3 2000 [obRetryThenOk, obOkFast] 5000 0).flatten
        = [5000, 7000, 7001] ∧
      gapsAtLeast 1000
        ((runBatchIssuances 1000 3 2000 [obRetryThenOk, obOkFast] 5000 0).flatten)
        = false := by
  constructor <;> decide

/-! ## Aggregator -/

theorem processBatches_counts {ε : Type} :
    ∀ pairs : List (List String × Except ε (List DeviceReading)),
      (processBatches pairs).2.1 + (processBatches pairs).2.2
        = (pairs.map (fun p => p.1.length)).sum := by
  intro pairs
  induction pairs with
  | nil => rfl
  | cons p rest ih =>
      obtain ⟨batch, res⟩ := p
      cases res with
      | ok d =>
          simp only [processBatches, List.map_cons, List.sum_cons]
          omega
      | error e =>
          simp only [processBatches, List.map_cons, List.sum_cons]
          omega

theorem processBatches_data {ε : Type} :
    ∀ pairs : List (List String × Except ε (List DeviceReading)),
      (processBatches pairs).1
        = (pairs.filterMap (fun p => match p.2 with
            | Except.ok d => some d
            | Except.error _ => none)).flatten := by
  intro pairs
  induction pairs with
  | nil => rfl
  | cons p rest ih =>
      obtain ⟨batch, res⟩ := p
      cases res with
      | ok d => simp [processBatches, List.filterMap_cons, ih]
      | error e => simp [processBatches, List.filterMap_cons, ih]

theorem processBatches_all_ok {ε : Type} :
    ∀ pairs : List (List String × Except ε (List DeviceReading)),
      (∀ p ∈ pairs, ∃ d, p.2 = Except.ok d ∧ d.length = p.1.length) →
      (processBatches pairs).2.1 = (pairs.map (fun p => p.1.length)).sum ∧
        (processBatches pairs).2.2 = 0 ∧
        (processBatches pairs).1.length
          = (pairs.map (fun p => p.1.length)).sum := by
  intro pairs
  induction pairs with
  | nil => intro h; exact ⟨rfl, rfl, rfl⟩
  | cons p rest ih =>
      intro h
      obtain ⟨batch, res⟩ := p
      obtain ⟨d, hd, hdl⟩ := h (batch, res) (List.mem_cons_self _ _)
      obtain ⟨h1, h2, h3⟩ := ih (fun q hq => h q (List.mem_cons_of_mem _ hq))
      simp only at hd
      subst hd
      simp only at hdl
      refine ⟨?_, ?_, ?_⟩
      · simp only [processBatches, List.map_cons, List.sum_cons]
        omega
      · simpa [processBatches] using h2
      · simp only [processBatches, List.map_cons, List.sum_cons,
          List.length_append]
        omega

theorem zip_fst_length_sum {ε : Type} (r : List (List String))
    (outs : List (Except ε (List DeviceReading)))
    (hlen : outs.length = r.length) :
    ((r.zip outs).map (fun p => p.1.length)).sum
      = (r.map List.length).sum := by
  have hfst : (r.zip outs).map Prod.fst = r :=
    List.map_fst_zip r outs (le_of_eq hlen.symm)
  calc ((r.zip outs).map (fun p => p.1.length)).sum
      = (((r.zip outs).map Prod.fst).map List.length).sum := by
        rw [List.map_map]; rfl
    _ = (r.map List.length).sum := by rw [hfst]

/-- C8: the batch loop of `fetchAllDeviceData` credits each batch's
identifier count exactly once — to `successCount` on success, to
`failureCount` on failure — and a failed batch never aborts the run:
after all batches, `successCount + failureCount` equals the population
size, the collected data is the concatenation of the successful payloads
in batch order, and if every call succeeds (one reading per requested
identifier) the run reports `n` resolved, 0 failed and `n` readings for a
population of `n`. -/
theorem aggregator_batch_accounting {ε : Type} (l : List String) (b : Nat)
    (r : List (List String)) (outs : List (Except ε (List DeviceReading)))
    (hb : 0 < b) (hr : createBatches l b = some r)
    (hlen : outs.length = r.length) :
    (processBatches (r.zip outs)).2.1 + (processBatches (r.zip outs)).2.2
        = l.length ∧
      (processBatches (r.zip outs)).1
          = ((r.zip outs).filterMap (fun p => match p.2 with
              | Except.ok d => some d
              | Except.error _ => none)).flatten ∧
      ((∀ p ∈ r.zip outs, ∃ d, p.2 = Except.ok d ∧ d.length = p.1.length) →
          (processBatches (r.zip outs)).2.1 = l.length ∧
          (processBatches (r.zip outs)).2.2 = 0 ∧
          (processBatches (r.zip outs)).1.length = l.length) := by
  obtain ⟨b, rfl⟩ : ∃ b', b = b' + 1 := ⟨b - 1, by omega⟩
  have hrc : r = chunkList b l := by
    have := createBatches_eq_chunkList l b
    rw [hr] at this
    exact Option.some.inj this
  have hsum : ((r.zip outs).map (fun p => p.1.length)).sum = l.length := by
    rw [zip_fst_length_sum r outs hlen]
    have : (r.map List.length).sum = r.flatten.length :=
      (List.length_flatten r).symm
    rw [this, hrc, chunkList_flatten]
  refine ⟨?_, processBatches_data (r.zip outs), ?_⟩
  · rw [processBatches_counts (r.zip outs), hsum]
  · intro hok
    obtain ⟨h1, h2, h3⟩ := processBatches_all_ok (r.zip outs) hok
    exact ⟨by rw [h1, hsum], h2, by rw [h3, hsum]⟩

/-- Witness for C8: population of three identifiers in batches of two,
both calls succeeding with one reading per identifier. -/
theorem aggregator_batch_accounting_witness :
    (processBatches ([["SN-000", "SN-001"], ["SN-002"]].zip
        ([Except.ok [⟨"SN-000", "1.0 kW", "Online"⟩, ⟨"SN-001", "2.0 kW", "Online"⟩],
          Except.ok [⟨"SN-002", "3.0 kW", "Offline"⟩]]
          : List (Except Unit (List DeviceReading))))).2.1
      + (processBatches ([["SN-000", "SN-001"], ["SN-002"]].zip
          ([Except.ok [⟨"SN-000", "1.0 kW", "Online"⟩, ⟨"SN-001", "2.0 kW", "Online"⟩],
            Except.ok [⟨"SN-002", "3.0 kW", "Offline"⟩]]
            : List (Except Unit (List DeviceReading))))).2.2
      = (["SN-000", "SN-001", "SN-002"] : List String).length :=
  (aggregator_batch_accounting (["SN-000", "SN-001", "SN-002"] : List String) 2
    [["SN-000", "SN-001"], ["SN-002"]]
    ([Except.ok [⟨"SN-000", "1.0 kW", "Online"⟩, ⟨"SN-001", "2.0 kW", "Online"⟩],
      Except.ok [⟨"SN-002", "3.0 kW", "Offline"⟩]]
      : List (Except Unit (List DeviceReading)))
    (by decide) (by decide) rfl).1
